import Mathlib

/-!
# Verification of the transaction–attachment matching core (`src/match.py`)

A shallow embedding of the matching engine: reference normalization, fuzzy
counterparty-name comparison, date-window compatibility, the amount gate,
the match scorer and the two query entry points `find_attachment` /
`find_transaction`.

Modelling conventions:
* Python `dict` records become structures with `Option` fields; Python
  truthiness of an optional string (`if s:`) is `truthy`.
* Monetary amounts are embedded as exact rationals `ℚ`; the Python code runs
  on IEEE doubles but every numeric comparison in the source carries an
  explicit tolerance (`< 0.001`) intended to absorb representation error, so
  exact rational arithmetic is the intended semantics.  `str(x)`'s count of
  decimal digits is embedded as the least `n` with `x * 10^n` integral; for
  integral `x` Python prints one digit (`"7.0"`) where the model says `0`,
  which cannot change the only condition that consumes the count
  (`|d₁ - d₂| > 3 ∧ max d₁ d₂ > 4`, both readings reduce to the non-integral
  side having ≥ 5 digits).
* Python's `\s` / `.strip()` / `.split()` whitespace is embedded as the six
  ASCII whitespace characters; `upper`/`lower` as the ASCII case maps.
* `datetime.strptime(s, "%Y-%m-%d")` is embedded as `parseDate`: exactly a
  4-digit year ≥ 1, a 1–2 digit month in 1..12 and a 1–2 digit day valid for
  that month/year (the `%m`/`%d` patterns accept unpadded digits), separated
  by literal hyphens, nothing else.  Day differences go through a proleptic
  Gregorian ordinal, exactly `date.toordinal`.
-/

set_option maxRecDepth 8000

namespace NocfoMatch

/-- Python truthiness of an optional string field: present and non-empty. -/
def truthy : Option String → Bool
  | none => false
  | some s => s ≠ ""

/-- The string carried by an optional field (`""` when absent). -/
def optVal : Option String → String
  | none => ""
  | some s => s

/-- ASCII whitespace, the ASCII part of Python's `\s` and `str.split()`. -/
def isSpaceChar (c : Char) : Bool :=
  c.toNat = 32 || c.toNat = 9 || c.toNat = 10 || c.toNat = 13 || c.toNat = 11 || c.toNat = 12

/-- ASCII upper-casing of one character, `str.upper`. -/
def upperChar (c : Char) : Char :=
  if h : 97 ≤ c.toNat ∧ c.toNat ≤ 122 then
    Char.ofNatAux (c.toNat - 32) (Or.inl (by omega))
  else c

/-- ASCII lower-casing of one character, `str.lower`. -/
def lowerChar (c : Char) : Char :=
  if h : 65 ≤ c.toNat ∧ c.toNat ≤ 90 then
    Char.ofNatAux (c.toNat + 32) (Or.inl (by omega))
  else c

/-- `s.upper()`. -/
def upperStr (s : String) : String := ⟨s.data.map upperChar⟩

/-- `s.lower()`. -/
def lowerStr (s : String) : String := ⟨s.data.map lowerChar⟩

/-- Whether `n` occurs as a contiguous run at the front of `h`. -/
def leadEq : List Char → List Char → Bool
  | [], _ => true
  | _ :: _, [] => false
  | x :: xs, y :: ys => x == y && leadEq xs ys

/-- Whether `n` occurs as a contiguous run anywhere in `h`: Python `n in h`. -/
def subseg (n h : List Char) : Bool :=
  match h with
  | [] => n.isEmpty
  | c :: t => leadEq n (c :: t) || subseg n t

/-- Python substring test `a in b`. -/
def isSubstr (a b : String) : Bool := subseg a.data b.data

/-- `re.sub(r'^0+', '', ·)` on a character list. -/
def dropZeros (l : List Char) : List Char := l.dropWhile (· == '0')

/-- Python `x or '0'`: replace the empty result by `"0"`. -/
def orZero (l : List Char) : List Char := if l.isEmpty then ['0'] else l

/-- `_normalize_reference` from `src/match.py`: empty/whitespace-only →
`""`; otherwise remove all whitespace, uppercase, and strip leading zeros —
after a leading `RF` marker when present — defaulting to `"0"`. -/
def _normalize_reference (reference : String) : String :=
  if reference.data.all isSpaceChar then ""
  else
    let normalized := (reference.data.map upperChar).filter (fun c => !isSpaceChar c)
    if normalized.take 2 = ['R', 'F'] then
      ⟨'R' :: 'F' :: orZero (dropZeros (normalized.drop 2))⟩
    else
      ⟨orZero (dropZeros normalized)⟩

/-- Python `s.split()`: split on whitespace runs, no empty pieces. -/
def pySplit (s : String) : List String :=
  (s.split isSpaceChar).filter (· ≠ "")

/-- `_normalize_name` from `src/match.py`: `' '.join(name.lower().split())`. -/
def _normalize_name (name : String) : String :=
  if name = "" then ""
  else String.intercalate " " (pySplit (lowerStr name))

/-- Python `set(s.split())`. -/
def wordSet (s : String) : Finset String := (pySplit s).toFinset

/-- The fixed legal-entity suffix set of `_names_match`. -/
def suffixes : List String :=
  ["oy", "ltd", "corp", "inc", "tmi", "ab", "as", "gmbh", "company", "co"]

/-- The body of `_names_match` after normalization (the part of the source
below the two `_normalize_name` calls). -/
def namesMatchCore (norm1 norm2 : String) : Bool :=
  if norm1 = norm2 then true
  else if isSubstr norm1 norm2 || isSubstr norm2 norm1 then true
  else
    let words1 := wordSet norm1
    let words2 := wordSet norm2
    if words1.card = 0 ∨ words2.card = 0 then false
    else
      let common := words1 ∩ words2
      let total := min words1.card words2.card
      if 2 ≤ common.card then
        decide ((1 : ℚ) / 2 ≤ (common.card : ℚ) / (total : ℚ))
      else if common.card = 1 ∧ total ≤ 2 then
        let nonCommon1 := words1 \ common
        let nonCommon2 := words2 \ common
        if nonCommon1.card = 0 ∨ nonCommon2.card = 0 then true
        else if nonCommon1.card = 1 ∧ nonCommon2.card = 1 then
          decide (∃ w ∈ nonCommon1, lowerStr w ∈ suffixes) ||
            decide (∃ w ∈ nonCommon2, lowerStr w ∈ suffixes)
        else false
      else false

/-- `_names_match` from `src/match.py`. -/
def _names_match (name1 name2 : String) : Bool :=
  if name1 = "" ∨ name2 = "" then false
  else namesMatchCore (_normalize_name name1) (_normalize_name name2)

/-- `_calculate_name_specificity` from `src/match.py`. -/
def _calculate_name_specificity (name1 name2 : String) : ℕ :=
  if name1 = "" ∨ name2 = "" then 0
  else
    let norm1 := _normalize_name name1
    let norm2 := _normalize_name name2
    if norm1 = norm2 then 4
    else if isSubstr norm1 norm2 || isSubstr norm2 norm1 then
      let longerName := if norm2.length > norm1.length then norm2 else norm1
      let shorterName := if norm1.length < norm2.length then norm1 else norm2
      if isSubstr shorterName longerName then 5
      else if decide
          ((3 : ℚ) / 4 < (min norm1.length norm2.length : ℚ) / (max norm1.length norm2.length : ℚ))
        then 3
      else 2
    else 0

/-- The `data` mapping of an attachment (§3 of the design): optional amount,
reference, three date fields and three counterparty-name fields. -/
structure AttData where
  total_amount : Option ℚ := none
  reference : Option String := none
  due_date : Option String := none
  invoicing_date : Option String := none
  receiving_date : Option String := none
  issuer : Option String := none
  recipient : Option String := none
  supplier : Option String := none
  deriving DecidableEq

/-- An attachment record: a wrapper around its `data` mapping plus the opaque
identity field the core never interprets. -/
structure Attachment where
  id : ℕ := 0
  data : AttData := {}
  deriving DecidableEq

/-- A bank-transaction record. -/
structure Transaction where
  id : ℕ := 0
  amount : Option ℚ := none
  date : Option String := none
  contact : Option String := none
  reference : Option String := none
  deriving DecidableEq

/-- `_get_attachment_counterparty_names` from `src/match.py`: the truthy
`issuer`, `recipient`, `supplier` fields in that order, dropping names that
contain `"example company"` case-insensitively. -/
def _get_attachment_counterparty_names (attachment : Attachment) : List String :=
  let data := attachment.data
  let names := ([data.issuer, data.recipient, data.supplier].filterMap id).filter (· ≠ "")
  names.filter (fun name => name ≠ "" && !isSubstr "example company" (lowerStr name))

/-- Gregorian leap year, as `datetime` uses. -/
def isLeap (y : ℕ) : Bool := (y % 4 = 0 && y % 100 ≠ 0) || y % 400 = 0

/-- Length of a month. -/
def daysInMonth (y m : ℕ) : ℕ :=
  if m = 2 then (if isLeap y then 29 else 28)
  else if m = 4 ∨ m = 6 ∨ m = 9 ∨ m = 11 then 30
  else 31

/-- Value of a non-empty all-digit character run. -/
def digitsToNat : List Char → Option ℕ
  | l =>
    if l ≠ [] ∧ l.all Char.isDigit then
      some (l.foldl (fun a c => 10 * a + (c.toNat - 48)) 0)
    else none

/-- `datetime.strptime(s, "%Y-%m-%d")`: exactly three hyphen-separated
all-digit groups — a 4-digit year ≥ 1, a 1–2 digit month in `1..12` and a
1–2 digit day that exists in that month. -/
def parseDate (s : String) : Option (ℕ × ℕ × ℕ) :=
  match s.split (· == '-') with
  | [ys, ms, ds] =>
    match digitsToNat ys.data, digitsToNat ms.data, digitsToNat ds.data with
    | some y, some m, some d =>
      if ys.length = 4 ∧ 1 ≤ y ∧ ms.length ≤ 2 ∧ 1 ≤ m ∧ m ≤ 12 ∧
          ds.length ≤ 2 ∧ 1 ≤ d ∧ d ≤ daysInMonth y m then
        some (y, m, d)
      else none
    | _, _, _ => none
  | _ => none

/-- Days in the months of year `y` before month `m`. -/
def daysBeforeMonth (y m : ℕ) : ℕ :=
  ((List.range (m - 1)).map (fun i => daysInMonth y (i + 1))).foldl (· + ·) 0

/-- `date.toordinal`: day number of a proleptic Gregorian date, so that
subtracting two ordinals is `(d1 - d2).days` on `datetime` values. -/
def toOrdinal : ℕ × ℕ × ℕ → ℤ
  | (y, m, d) =>
    365 * ((y : ℤ) - 1) + ((y : ℤ) - 1) / 4 - ((y : ℤ) - 1) / 100 +
      ((y : ℤ) - 1) / 400 + daysBeforeMonth y m + d

/-- The body of the `for field in date_fields` loop of
`_are_dates_compatible`: a truthy field that parses and lies within the
tolerance. -/
def dateFieldOk (tx_dt : ℕ × ℕ × ℕ) (tolerance_days : ℕ) : Option String → Bool
  | none => false
  | some s =>
    if s ≠ "" then
      match parseDate s with
      | some att_dt => (toOrdinal tx_dt - toOrdinal att_dt).natAbs ≤ tolerance_days
      | none => false
    else false

/-- `_are_dates_compatible` from `src/match.py`: parse the transaction date;
walk `due_date`, `invoicing_date`, `receiving_date` in order, skipping
falsy or unparsable fields; succeed on the first one within
`tolerance_days` days. -/
def _are_dates_compatible (tx_date : String) (att_data : AttData)
    (tolerance_days : ℕ := 15) : Bool :=
  match parseDate tx_date with
  | none => false
  | some tx_dt =>
    [att_data.due_date, att_data.invoicing_date, att_data.receiving_date].any
      (dateFieldOk tx_dt tolerance_days)

/-- Whether an exact rational is an integer (`x % 1 == 0` territory). -/
def isIntegralQ (q : ℚ) : Bool := q.den = 1

/-- Floor of a rational as an integer (floor division of numerator by
denominator, as Python's `//`). -/
def ratFloor (q : ℚ) : ℤ := Int.fdiv q.num q.den

/-- Python `x % 1`: the floor-fractional part. -/
def pyMod1 (q : ℚ) : ℚ := q - (ratFloor q : ℚ)

/-- `10 ^ n` as a rational, by iterated multiplication. -/
def pow10Q : ℕ → ℚ
  | 0 => 1
  | n + 1 => 10 * pow10Q n

/-- Number of digits after the decimal point of `str(x)` for a nonnegative
exact decimal `x`: the least `n` with `x·10^n` integral (401 when no such
`n ≤ 400` exists; every IEEE double is exact in well under 400 digits). -/
def decimalPlaces (q : ℚ) : ℕ :=
  ((List.range 401).find? (fun n => isIntegralQ (q * pow10Q n))).getD 401

/-- The nested `is_precision_mismatch()` of `_calculate_match_score`:
flags an exact-cent discrepancy as a data-entry error unless it looks like
the `X.99` / `(X+1).00` banking pattern. -/
def is_precision_mismatch (tx_abs att_abs : ℚ) : Bool :=
  let amount_diff := |att_abs - tx_abs|
  let tx_decimals := decimalPlaces tx_abs
  let att_decimals := decimalPlaces att_abs
  if 3 < ((tx_decimals : ℤ) - (att_decimals : ℤ)).natAbs ∧ 4 < max tx_decimals att_decimals then
    true
  else if |amount_diff - 1 / 100| < 1 / 1000 then
    let tx_is_round := |pyMod1 (tx_abs * 100)| < (1 : ℚ) / 1000
    let att_is_round := |pyMod1 (att_abs * 100)| < (1 : ℚ) / 1000
    if tx_is_round ∧ att_is_round then
      let is_banking_pattern :=
        (|pyMod1 tx_abs - 99 / 100| < (1 : ℚ) / 1000 ∧ |pyMod1 att_abs| < (1 : ℚ) / 1000) ∨
          (|pyMod1 att_abs - 99 / 100| < (1 : ℚ) / 1000 ∧ |pyMod1 tx_abs| < (1 : ℚ) / 1000)
      if ¬is_banking_pattern ∧
          (|pyMod1 tx_abs| < (1 : ℚ) / 1000 ∨ |pyMod1 att_abs| < (1 : ℚ) / 1000) then
        true
      else false
    else false
  else false

/-- One iteration of the `for att_counterparty in att_counterparties` loop
of `_calculate_match_score`: improve the best specificity over matching
names, setting the flag on every improvement. -/
def cpStep (contact : String) (acc : ℕ × Bool) (n : String) : ℕ × Bool :=
  if _names_match contact n then
    let s := _calculate_name_specificity contact n
    if s > acc.1 then (s, true) else acc
  else acc

/-- The inner loop of step 3 of `_calculate_match_score`: running best
specificity over the matching counterparty names, with the flag set exactly
when the running best is improved. -/
def counterpartyBest (contact : String) (names : List String) : ℕ × Bool :=
  names.foldl (cpStep contact) (0, false)

/-- The point table at the end of step 3 of `_calculate_match_score`. -/
def pointsForBest (best : ℕ) : ℕ :=
  if 5 ≤ best then 5
  else if 4 ≤ best then 4
  else if 3 ≤ best then 3
  else if 2 ≤ best then 2
  else 1

/-- `_calculate_match_score` from `src/match.py`: hard amount gate worth 3,
then +2 for date compatibility, then the counterparty evaluation. -/
def _calculate_match_score (transaction : Transaction) (attachment : Attachment) :
    ℕ × Bool :=
  let att_data := attachment.data
  let att_counterparties := _get_attachment_counterparty_names attachment
  match att_data.total_amount, transaction.amount with
  | none, _ => (0, false)
  | _, none => (0, false)
  | some att_amount, some tx_amount =>
    let att_abs := |att_amount|
    let tx_abs := |tx_amount|
    let amount_diff := |att_abs - tx_abs|
    let tolerance : ℚ := if is_precision_mismatch tx_abs att_abs then 2 / 1000 else 11 / 1000
    if amount_diff > tolerance then (0, false)
    else
      let score := 3
      let score :=
        if truthy transaction.date ∧ _are_dates_compatible (optVal transaction.date) att_data then
          score + 2
        else score
      if truthy transaction.contact then
        let r := counterpartyBest (optVal transaction.contact) att_counterparties
        if r.2 then (score + pointsForBest r.1, true) else (score, false)
      else if att_counterparties ≠ [] then (score + 1, true)
      else (score + 1, true)

/-- The candidate test of the reference short-circuit: truthy candidate
reference whose normalization is byte-equal to the queried one. -/
def refMatchA (refNorm : String) (a : Attachment) : Bool :=
  truthy a.data.reference && (_normalize_reference (optVal a.data.reference) = refNorm)

/-- Mirror of `refMatchA` on the transaction side. -/
def refMatchT (refNorm : String) (t : Transaction) : Bool :=
  truthy t.reference && (_normalize_reference (optVal t.reference) = refNorm)

/-- One step of Python's stable `list.sort(key=score, reverse=True)`:
insert behind every element of at-least-equal score. -/
def insertDesc {α : Type} (x : α × ℕ) : List (α × ℕ) → List (α × ℕ)
  | [] => [x]
  | y :: ys => if y.2 ≥ x.2 then y :: insertDesc x ys else x :: y :: ys

/-- Python's stable descending sort by score (`candidates.sort(key=..., reverse=True)`). -/
def pySortDesc {α : Type} (l : List (α × ℕ)) : List (α × ℕ) :=
  l.foldl (fun acc x => insertDesc x acc) []

/-- The candidate list built by the scored fallback: every attachment whose
score is at least 5 with the counterparty flag set, paired with its score. -/
def candsA (transaction : Transaction) (attachments : List Attachment) :
    List (Attachment × ℕ) :=
  attachments.filterMap fun a =>
    let r := _calculate_match_score transaction a
    if 5 ≤ r.1 ∧ r.2 = true then some (a, r.1) else none

/-- Mirror of `candsA` for `find_transaction`. -/
def candsT (attachment : Attachment) (transactions : List Transaction) :
    List (Transaction × ℕ) :=
  transactions.filterMap fun t =>
    let r := _calculate_match_score t attachment
    if 5 ≤ r.1 ∧ r.2 = true then some (t, r.1) else none

/-- `find_attachment` from `src/match.py`. -/
def find_attachment (transaction : Transaction) (attachments : List Attachment) :
    Option Attachment :=
  let refResult :=
    if truthy transaction.reference then
      attachments.find? (refMatchA (_normalize_reference (optVal transaction.reference)))
    else none
  match refResult with
  | some a => some a
  | none =>
    match pySortDesc (candsA transaction attachments) with
    | [] => none
    | c :: _ => some c.1

/-- `find_transaction` from `src/match.py`. -/
def find_transaction (attachment : Attachment) (transactions : List Transaction) :
    Option Transaction :=
  let refResult :=
    if truthy attachment.data.reference then
      transactions.find? (refMatchT (_normalize_reference (optVal attachment.data.reference)))
    else none
  match refResult with
  | some t => some t
  | none =>
    match pySortDesc (candsT attachment transactions) with
    | [] => none
    | c :: _ => some c.1

/-! ## Helper lemmas about the stable descending sort -/

/-- One step of the claim-side selection: keep the earlier candidate unless
the later one scores strictly higher. -/
def pickMax {α : Type} (b x : α × ℕ) : α × ℕ := if x.2 > b.2 then x else b

/-- Claim-side selection: the first-encountered candidate of strictly
highest score, `none` on the empty list. -/
def firstStrictMax {α : Type} : List (α × ℕ) → Option (α × ℕ)
  | [] => none
  | c :: cs => some (cs.foldl pickMax c)

theorem foldl_insertDesc_head {α : Type} (l : List (α × ℕ)) :
    ∀ (h : α × ℕ) (t : List (α × ℕ)),
      (l.foldl (fun acc x => insertDesc x acc) (h :: t)).head? = some (l.foldl pickMax h) := by
  induction l with
  | nil => intro h t; rfl
  | cons x xs ih =>
    intro h t
    simp only [List.foldl_cons]
    by_cases hc : h.2 ≥ x.2
    · rw [show insertDesc x (h :: t) = h :: insertDesc x t from by simp [insertDesc, hc]]
      rw [ih h (insertDesc x t)]
      have : pickMax h x = h := by simp [pickMax]; omega
      rw [this]
    · rw [show insertDesc x (h :: t) = x :: h :: t from by simp [insertDesc, hc]]
      rw [ih x (h :: t)]
      have : pickMax h x = x := by simp [pickMax]; omega
      rw [this]

theorem pySortDesc_head {α : Type} (l : List (α × ℕ)) :
    (pySortDesc l).head? = firstStrictMax l := by
  cases l with
  | nil => rfl
  | cons c cs =>
    show ((c :: cs).foldl (fun acc x => insertDesc x acc) []).head? = _
    rw [List.foldl_cons]
    exact foldl_insertDesc_head cs c []

theorem mem_insertDesc {α : Type} {x y : α × ℕ} :
    ∀ {l : List (α × ℕ)}, y ∈ insertDesc x l → y = x ∨ y ∈ l := by
  intro l
  induction l with
  | nil => intro h; simpa [insertDesc] using h
  | cons z zs ih =>
    intro h
    by_cases hc : z.2 ≥ x.2
    · rw [show insertDesc x (z :: zs) = z :: insertDesc x zs from by simp [insertDesc, hc]] at h
      rcases List.mem_cons.mp h with h | h
      · exact Or.inr (by simp [h])
      · rcases ih h with h | h
        · exact Or.inl h
        · exact Or.inr (by simp [h])
    · rw [show insertDesc x (z :: zs) = x :: z :: zs from by simp [insertDesc, hc]] at h
      rcases List.mem_cons.mp h with h | h
      · exact Or.inl h
      · exact Or.inr h

theorem mem_foldl_insertDesc {α : Type} {y : α × ℕ} :
    ∀ (l acc : List (α × ℕ)), y ∈ l.foldl (fun a x => insertDesc x a) acc →
      y ∈ acc ∨ y ∈ l := by
  intro l
  induction l with
  | nil => intro acc h; exact Or.inl h
  | cons x xs ih =>
    intro acc h
    rw [List.foldl_cons] at h
    rcases ih (insertDesc x acc) h with h | h
    · rcases mem_insertDesc h with h | h
      · exact Or.inr (by simp [h])
      · exact Or.inl h
    · exact Or.inr (by simp [h])

theorem mem_pySortDesc {α : Type} {y : α × ℕ} {l : List (α × ℕ)}
    (h : y ∈ pySortDesc l) : y ∈ l := by
  rcases mem_foldl_insertDesc l [] h with h | h
  · simp at h
  · exact h

theorem candsA_mem {tx : Transaction} {atts : List Attachment} {p : Attachment × ℕ}
    (h : p ∈ candsA tx atts) : p.1 ∈ atts := by
  rcases List.mem_filterMap.mp h with ⟨a, ha, hfa⟩
  by_cases hc : 5 ≤ (_calculate_match_score tx a).1 ∧ (_calculate_match_score tx a).2 = true
  · simp only [candsA, if_pos hc] at hfa
    cases hfa; simpa using ha
  · simp [candsA, if_neg hc] at hfa

theorem candsT_mem {att : Attachment} {ts : List Transaction} {p : Transaction × ℕ}
    (h : p ∈ candsT att ts) : p.1 ∈ ts := by
  rcases List.mem_filterMap.mp h with ⟨t, ht, hft⟩
  by_cases hc : 5 ≤ (_calculate_match_score t att).1 ∧ (_calculate_match_score t att).2 = true
  · simp only [candsT, if_pos hc] at hft
    cases hft; simpa using ht
  · simp [candsT, if_neg hc] at hft

theorem candsA_eq (tx : Transaction) : ∀ atts : List Attachment,
    candsA tx atts =
      (atts.filter fun a =>
          decide (5 ≤ (_calculate_match_score tx a).1 ∧ (_calculate_match_score tx a).2 = true)).map
        fun a => (a, (_calculate_match_score tx a).1) := by
  intro atts
  induction atts with
  | nil => rfl
  | cons a rest ih =>
    by_cases hc : 5 ≤ (_calculate_match_score tx a).1 ∧ (_calculate_match_score tx a).2 = true
    · simp only [candsA, List.filterMap_cons, List.filter_cons, if_pos hc,
        decide_eq_true hc, if_true, List.map_cons]
      exact congrArg _ ih
    · simp only [candsA, List.filterMap_cons, List.filter_cons, if_neg hc,
        decide_eq_false hc, Bool.false_eq_true, if_false]
      exact ih

theorem candsT_eq (att : Attachment) : ∀ ts : List Transaction,
    candsT att ts =
      (ts.filter fun t =>
          decide (5 ≤ (_calculate_match_score t att).1 ∧ (_calculate_match_score t att).2 = true)).map
        fun t => (t, (_calculate_match_score t att).1) := by
  intro ts
  induction ts with
  | nil => rfl
  | cons t rest ih =>
    by_cases hc : 5 ≤ (_calculate_match_score t att).1 ∧ (_calculate_match_score t att).2 = true
    · simp only [candsT, List.filterMap_cons, List.filter_cons, if_pos hc,
        decide_eq_true hc, if_true, List.map_cons]
      exact congrArg _ ih
    · simp only [candsT, List.filterMap_cons, List.filter_cons, if_neg hc,
        decide_eq_false hc, Bool.false_eq_true, if_false]
      exact ih

/-! ## C2: the exact-reference short-circuit -/

/-- C2: if the queried record has a truthy reference and some candidate's
normalized reference is byte-equal to the queried one, `find_attachment`
returns the first such candidate in input order — whatever its amounts,
dates or score, and whatever candidates follow it; mirror statement for
`find_transaction`. -/
theorem claim_C2_reference_short_circuit :
    (∀ (tx : Transaction) (l₁ l₂ : List Attachment) (a : Attachment),
      truthy tx.reference = true →
      refMatchA (_normalize_reference (optVal tx.reference)) a = true →
      (∀ b ∈ l₁, refMatchA (_normalize_reference (optVal tx.reference)) b = false) →
      find_attachment tx (l₁ ++ a :: l₂) = some a) ∧
    (∀ (att : Attachment) (l₁ l₂ : List Transaction) (t : Transaction),
      truthy att.data.reference = true →
      refMatchT (_normalize_reference (optVal att.data.reference)) t = true →
      (∀ b ∈ l₁, refMatchT (_normalize_reference (optVal att.data.reference)) b = false) →
      find_transaction att (l₁ ++ t :: l₂) = some t) := by
  constructor
  · intro tx l₁ l₂ a htr hma hl
    have h₁ : l₁.find? (refMatchA (_normalize_reference (optVal tx.reference))) = none :=
      List.find?_eq_none.mpr fun b hb => by simp [hl b hb]
    simp only [find_attachment, htr, if_true, List.find?_append, h₁, Option.none_or,
      List.find?_cons_of_pos _ hma]
  · intro att l₁ l₂ t htr hmt hl
    have h₁ : l₁.find? (refMatchT (_normalize_reference (optVal att.data.reference))) = none :=
      List.find?_eq_none.mpr fun b hb => by simp [hl b hb]
    simp only [find_transaction, htr, if_true, List.find?_append, h₁, Option.none_or,
      List.find?_cons_of_pos _ hmt]

/-- Witness for C2 at concrete records: the pair `"123"` / `"0123"`
normalizes equally, the first candidate has no reference, and the amounts
(`1` versus `1000000`) are wildly apart, yet the match is returned. -/
theorem claim_C2_witness :
    find_attachment { id := 1, amount := some 1, reference := some "123" }
        [{ id := 5 }, { id := 6, data := { reference := some "0123", total_amount := some 1000000 } }] =
      some { id := 6, data := { reference := some "0123", total_amount := some 1000000 } } ∧
    find_transaction { id := 2, data := { reference := some "RF07", total_amount := some 3 } }
        [{ id := 7 }, { id := 8, reference := some "RF7", amount := some 55 }] =
      some { id := 8, reference := some "RF7", amount := some 55 } := by
  constructor
  · exact claim_C2_reference_short_circuit.1
      { id := 1, amount := some 1, reference := some "123" }
      [{ id := 5 }]
      []
      { id := 6, data := { reference := some "0123", total_amount := some 1000000 } }
      (by decide) (by decide) (by decide)
  · exact claim_C2_reference_short_circuit.2
      { id := 2, data := { reference := some "RF07", total_amount := some 3 } }
      [{ id := 7 }]
      []
      { id := 8, reference := some "RF7", amount := some 55 }
      (by decide) (by decide) (by decide)

/-! ## C3: the scored fallback -/

/-- C3: when the reference short-circuit finds nothing (in particular when
the queried record has no truthy reference), the query keeps exactly the
candidates scoring at least 5 with the counterparty flag set, and returns
the first-encountered candidate of strictly highest score, or `none` when
no candidate is kept; mirror statement for `find_transaction`. -/
theorem claim_C3_scored_fallback :
    (∀ (tx : Transaction) (atts : List Attachment),
      (truthy tx.reference = false ∨
        atts.find? (refMatchA (_normalize_reference (optVal tx.reference))) = none) →
      find_attachment tx atts =
        Option.map Prod.fst (firstStrictMax
          ((atts.filter fun a =>
              decide (5 ≤ (_calculate_match_score tx a).1 ∧
                (_calculate_match_score tx a).2 = true)).map
            fun a => (a, (_calculate_match_score tx a).1)))) ∧
    (∀ (att : Attachment) (ts : List Transaction),
      (truthy att.data.reference = false ∨
        ts.find? (refMatchT (_normalize_reference (optVal att.data.reference))) = none) →
      find_transaction att ts =
        Option.map Prod.fst (firstStrictMax
          ((ts.filter fun t =>
              decide (5 ≤ (_calculate_match_score t att).1 ∧
                (_calculate_match_score t att).2 = true)).map
            fun t => (t, (_calculate_match_score t att).1)))) := by
  constructor
  · intro tx atts hnone
    have href : (if truthy tx.reference then
        atts.find? (refMatchA (_normalize_reference (optVal tx.reference))) else none) = none := by
      rcases hnone with h | h
      · simp [h]
      · simp [h]
    have hhead := pySortDesc_head (candsA tx atts)
    rw [← candsA_eq]
    show (match (if truthy tx.reference then
        atts.find? (refMatchA (_normalize_reference (optVal tx.reference))) else none) with
      | some a => some a
      | none =>
        match pySortDesc (candsA tx atts) with
        | [] => none
        | c :: _ => some c.1) = _
    rw [href]
    cases hps : pySortDesc (candsA tx atts) with
    | nil => rw [hps] at hhead; simp at hhead; rw [← hhead]; rfl
    | cons c rest => rw [hps] at hhead; simp at hhead; rw [← hhead]; rfl
  · intro att ts hnone
    have href : (if truthy att.data.reference then
        ts.find? (refMatchT (_normalize_reference (optVal att.data.reference))) else none) = none := by
      rcases hnone with h | h
      · simp [h]
      · simp [h]
    have hhead := pySortDesc_head (candsT att ts)
    rw [← candsT_eq]
    show (match (if truthy att.data.reference then
        ts.find? (refMatchT (_normalize_reference (optVal att.data.reference))) else none) with
      | some t => some t
      | none =>
        match pySortDesc (candsT att ts) with
        | [] => none
        | c :: _ => some c.1) = _
    rw [href]
    cases hps : pySortDesc (candsT att ts) with
    | nil => rw [hps] at hhead; simp at hhead; rw [← hhead]; rfl
    | cons c rest => rw [hps] at hhead; simp at hhead; rw [← hhead]; rfl

/-- Witness for C3: no reference anywhere, two candidates tie at score 6,
the first one in input order is returned; the transaction side returns the
unique kept candidate. -/
theorem claim_C3_witness :
    find_attachment { id := 9, amount := some 100, date := some "2024-07-15" }
        [{ id := 41, data := { total_amount := some 100, due_date := some "2024-07-15" } },
         { id := 42, data := { total_amount := some 100, due_date := some "2024-07-20" } }] =
      some { id := 41, data := { total_amount := some 100, due_date := some "2024-07-15" } } ∧
    find_transaction { id := 3, data := { total_amount := some 80, due_date := some "2024-05-01" } }
        [{ id := 51, amount := some 80, date := some "2024-05-02" }] =
      some { id := 51, amount := some 80, date := some "2024-05-02" } := by
  constructor
  · have h := claim_C3_scored_fallback.1
      { id := 9, amount := some 100, date := some "2024-07-15" }
      [{ id := 41, data := { total_amount := some 100, due_date := some "2024-07-15" } },
       { id := 42, data := { total_amount := some 100, due_date := some "2024-07-20" } }]
      (Or.inl (by decide))
    rw [h]; with_unfolding_all decide
  · have h := claim_C3_scored_fallback.2
      { id := 3, data := { total_amount := some 80, due_date := some "2024-05-01" } }
      [{ id := 51, amount := some 80, date := some "2024-05-02" }]
      (Or.inl (by decide))
    rw [h]; with_unfolding_all decide

/-! ## C10: results are drawn from the candidate list -/

/-- C10: `find_attachment` returns `none` or an element of the supplied
attachment list, and `find_transaction` returns `none` or an element of the
supplied transaction list. -/
theorem claim_C10_result_membership :
    (∀ (tx : Transaction) (atts : List Attachment) (a : Attachment),
      find_attachment tx atts = some a → a ∈ atts) ∧
    (∀ (att : Attachment) (ts : List Transaction) (t : Transaction),
      find_transaction att ts = some t → t ∈ ts) := by
  constructor
  · intro tx atts a h
    rw [show find_attachment tx atts = (match (if truthy tx.reference then
        atts.find? (refMatchA (_normalize_reference (optVal tx.reference))) else none) with
      | some x => some x
      | none =>
        match pySortDesc (candsA tx atts) with
        | [] => none
        | c :: _ => some c.1) from rfl] at h
    cases hr : (if truthy tx.reference then
        atts.find? (refMatchA (_normalize_reference (optVal tx.reference))) else none) with
    | some b =>
      rw [hr] at h
      cases h
      by_cases ht : truthy tx.reference
      · rw [if_pos ht] at hr
        exact List.mem_of_find?_eq_some hr
      · rw [if_neg ht] at hr; cases hr
    | none =>
      rw [hr] at h
      cases hps : pySortDesc (candsA tx atts) with
      | nil => rw [hps] at h; cases h
      | cons c rest =>
        rw [hps] at h
        cases h
        have : c ∈ pySortDesc (candsA tx atts) := by rw [hps]; simp
        exact candsA_mem (mem_pySortDesc this)
  · intro att ts t h
    rw [show find_transaction att ts = (match (if truthy att.data.reference then
        ts.find? (refMatchT (_normalize_reference (optVal att.data.reference))) else none) with
      | some x => some x
      | none =>
        match pySortDesc (candsT att ts) with
        | [] => none
        | c :: _ => some c.1) from rfl] at h
    cases hr : (if truthy att.data.reference then
        ts.find? (refMatchT (_normalize_reference (optVal att.data.reference))) else none) with
    | some b =>
      rw [hr] at h
      cases h
      by_cases ht : truthy att.data.reference
      · rw [if_pos ht] at hr
        exact List.mem_of_find?_eq_some hr
      · rw [if_neg ht] at hr; cases hr
    | none =>
      rw [hr] at h
      cases hps : pySortDesc (candsT att ts) with
      | nil => rw [hps] at h; cases h
      | cons c rest =>
        rw [hps] at h
        cases h
        have : c ∈ pySortDesc (candsT att ts) := by rw [hps]; simp
        exact candsT_mem (mem_pySortDesc this)

/-- Witness for C10 at a query that succeeds through scoring and one that
succeeds through the reference short-circuit. -/
theorem claim_C10_witness :
    ({ id := 61, data := { total_amount := some 20, due_date := some "2024-01-10" } } : Attachment) ∈
        [{ id := 61, data := { total_amount := some 20, due_date := some "2024-01-10" } }] ∧
    ({ id := 62, reference := some "77" } : Transaction) ∈
        [{ id := 62, reference := some "77" }] := by
  constructor
  · exact claim_C10_result_membership.1
      { id := 60, amount := some 20, date := some "2024-01-11" }
      [{ id := 61, data := { total_amount := some 20, due_date := some "2024-01-10" } }]
      { id := 61, data := { total_amount := some 20, due_date := some "2024-01-10" } }
      (by with_unfolding_all decide)
  · exact claim_C10_result_membership.2
      { id := 63, data := { reference := some "0077" } }
      [{ id := 62, reference := some "77" }]
      { id := 62, reference := some "77" }
      (by decide)

/-! ## C7: date compatibility -/

/-- C7: `are_dates_compatible(tx_date, att_data, 15)` holds exactly when the
transaction date parses and one of `due_date`, `invoicing_date`,
`receiving_date` is present, parses, and lies within 15 days; an unparsable
field is merely skipped, 15 days is accepted, 16 days and an unparsable
transaction date are rejected. -/
theorem claim_C7_date_compatibility :
    (∀ (td : String) (att : AttData),
      _are_dates_compatible td att 15 = true ↔
        ∃ t, parseDate td = some t ∧
          ∃ d ∈ [att.due_date, att.invoicing_date, att.receiving_date],
            ∃ s y, d = some s ∧ parseDate s = some y ∧
              (toOrdinal t - toOrdinal y).natAbs ≤ 15) ∧
    _are_dates_compatible "2024-07-15" { due_date := some "2024-07-30" } 15 = true ∧
    _are_dates_compatible "2024-07-15" { due_date := some "2024-07-31" } 15 = false ∧
    _are_dates_compatible "2024-07-15" { due_date := some "bogus", invoicing_date := some "2024-07-20" } 15 = true ∧
    _are_dates_compatible "bogus" { due_date := some "2024-07-15" } 15 = false := by
  have hfield : ∀ (t : ℕ × ℕ × ℕ) (d : Option String),
      dateFieldOk t 15 d = true ↔
        ∃ s y, d = some s ∧ parseDate s = some y ∧
          (toOrdinal t - toOrdinal y).natAbs ≤ 15 := by
    intro t d
    cases d with
    | none => simp [dateFieldOk]
    | some s =>
      by_cases hs : s = ""
      · subst hs
        simp only [dateFieldOk, ne_eq, not_true_eq_false, if_false]
        constructor
        · intro h; cases h
        · rintro ⟨s, y, hss, hy, -⟩
          cases hss
          rw [show parseDate "" = none from by with_unfolding_all decide] at hy
          cases hy
      · rw [show dateFieldOk t 15 (some s) =
            (if s ≠ "" then
              match parseDate s with
              | some att_dt => decide ((toOrdinal t - toOrdinal att_dt).natAbs ≤ 15)
              | none => false
            else false) from rfl, if_pos hs]
        cases hq : parseDate s with
        | none =>
          simp only [Option.some.injEq]
          constructor
          · intro h; cases h
          · rintro ⟨s', y, rfl, hy, -⟩
            rw [hq] at hy; cases hy
        | some y =>
          simp only [decide_eq_true_eq, Option.some.injEq]
          constructor
          · intro h; exact ⟨s, y, rfl, hq, h⟩
          · rintro ⟨s', y', rfl, hy, hle⟩
            rw [hq] at hy
            cases hy
            exact hle
  refine ⟨?_, by with_unfolding_all decide, by with_unfolding_all decide,
    by with_unfolding_all decide, by with_unfolding_all decide⟩
  intro td att
  unfold _are_dates_compatible
  cases hp : parseDate td with
  | none =>
    simp only [Bool.false_eq_true, false_iff]
    rintro ⟨t, ht, -⟩
    cases ht
  | some t =>
    simp only [List.any_eq_true]
    constructor
    · rintro ⟨f, hf, hpred⟩
      exact ⟨t, rfl, f, hf, (hfield t f).mp hpred⟩
    · rintro ⟨t', ht', d, hd, hrest⟩
      cases ht'
      exact ⟨d, hd, (hfield t d).mpr hrest⟩

/-! ## C9: symmetry of the fuzzy name matcher -/

theorem namesMatchCore_symm (n1 n2 : String) :
    namesMatchCore n1 n2 = namesMatchCore n2 n1 := by
  by_cases h : n1 = n2
  · subst h; rfl
  · simp only [namesMatchCore]
    rw [if_neg h, if_neg (show ¬ n2 = n1 from fun e => h e.symm)]
    rw [Bool.or_comm (isSubstr n2 n1) (isSubstr n1 n2)]
    by_cases hsub : (isSubstr n1 n2 || isSubstr n2 n1) = true
    · rw [if_pos hsub, if_pos hsub]
    · rw [if_neg hsub, if_neg hsub]
      rw [Finset.inter_comm (wordSet n2) (wordSet n1)]
      rw [min_comm (wordSet n2).card (wordSet n1).card]
      by_cases h0 : (wordSet n1).card = 0 ∨ (wordSet n2).card = 0
      · rw [if_pos h0,
          if_pos (show (wordSet n2).card = 0 ∨ (wordSet n1).card = 0 from h0.symm)]
      · rw [if_neg h0,
          if_neg (show ¬((wordSet n2).card = 0 ∨ (wordSet n1).card = 0) from
            fun e => h0 e.symm)]
        by_cases h2 : 2 ≤ (wordSet n1 ∩ wordSet n2).card
        · rw [if_pos h2, if_pos h2]
        · rw [if_neg h2, if_neg h2]
          by_cases h1 : (wordSet n1 ∩ wordSet n2).card = 1 ∧
              min (wordSet n1).card (wordSet n2).card ≤ 2
          · rw [if_pos h1, if_pos h1]
            by_cases hz : (wordSet n1 \ (wordSet n1 ∩ wordSet n2)).card = 0 ∨
                (wordSet n2 \ (wordSet n1 ∩ wordSet n2)).card = 0
            · rw [if_pos hz,
                if_pos (show (wordSet n2 \ (wordSet n1 ∩ wordSet n2)).card = 0 ∨
                  (wordSet n1 \ (wordSet n1 ∩ wordSet n2)).card = 0 from hz.symm)]
            · rw [if_neg hz,
                if_neg (show ¬((wordSet n2 \ (wordSet n1 ∩ wordSet n2)).card = 0 ∨
                  (wordSet n1 \ (wordSet n1 ∩ wordSet n2)).card = 0) from
                    fun e => hz e.symm)]
              by_cases h11 : (wordSet n1 \ (wordSet n1 ∩ wordSet n2)).card = 1 ∧
                  (wordSet n2 \ (wordSet n1 ∩ wordSet n2)).card = 1
              · rw [if_pos h11,
                  if_pos (show (wordSet n2 \ (wordSet n1 ∩ wordSet n2)).card = 1 ∧
                    (wordSet n1 \ (wordSet n1 ∩ wordSet n2)).card = 1 from
                      And.intro h11.2 h11.1)]
                rw [Bool.or_comm]
              · rw [if_neg h11,
                  if_neg (show ¬((wordSet n2 \ (wordSet n1 ∩ wordSet n2)).card = 1 ∧
                    (wordSet n1 \ (wordSet n1 ∩ wordSet n2)).card = 1) from
                      fun e => h11 (And.intro e.2 e.1))]
          · rw [if_neg h1, if_neg h1]

/-- C9: `names_match` is symmetric in its two arguments. -/
theorem claim_C9_names_match_symmetric (a b : String) :
    _names_match a b = _names_match b a := by
  simp only [_names_match]
  by_cases h : a = "" ∨ b = ""
  · rw [if_pos h, if_pos h.symm]
  · rw [if_neg h, if_neg (fun e => h e.symm)]
    exact namesMatchCore_symm _ _

/-! ## C8: idempotence of reference normalization -/

theorem upperChar_toNat_of_lower {c : Char} (h : 97 ≤ c.toNat ∧ c.toNat ≤ 122) :
    (upperChar c).toNat = c.toNat - 32 := by
  unfold upperChar
  rw [dif_pos h]
  rfl

theorem upperChar_eq_of_not_lower {c : Char} (h : ¬(97 ≤ c.toNat ∧ c.toNat ≤ 122)) :
    upperChar c = c := by
  unfold upperChar
  rw [dif_neg h]

theorem upperChar_idem (c : Char) : upperChar (upperChar c) = upperChar c := by
  by_cases h : 97 ≤ c.toNat ∧ c.toNat ≤ 122
  · have ht : (upperChar c).toNat = c.toNat - 32 := upperChar_toNat_of_lower h
    exact upperChar_eq_of_not_lower (by omega)
  · rw [upperChar_eq_of_not_lower h, upperChar_eq_of_not_lower h]

theorem isSpaceChar_upperChar (c : Char) : isSpaceChar (upperChar c) = isSpaceChar c := by
  by_cases h : 97 ≤ c.toNat ∧ c.toNat ≤ 122
  · have ht : (upperChar c).toNat = c.toNat - 32 := upperChar_toNat_of_lower h
    have h1 : isSpaceChar (upperChar c) = false := by
      simp only [isSpaceChar, Bool.or_eq_false_iff, decide_eq_false_iff_not]
      omega
    have h2 : isSpaceChar c = false := by
      simp only [isSpaceChar, Bool.or_eq_false_iff, decide_eq_false_iff_not]
      omega
    rw [h1, h2]
  · rw [upperChar_eq_of_not_lower h]

/-- Every character surviving the uppercase-and-drop-whitespace pass is a
fixed point of `upperChar` and is not whitespace. -/
theorem normChars_fixed (r : String) :
    ∀ c ∈ (r.data.map upperChar).filter (fun c => !isSpaceChar c),
      upperChar c = c ∧ isSpaceChar c = false := by
  intro c hc
  rcases List.mem_filter.mp hc with ⟨hm, hs⟩
  rcases List.mem_map.mp hm with ⟨x, hx, rfl⟩
  exact ⟨upperChar_idem x, by simpa using hs⟩

theorem map_upperChar_fixed {l : List Char} (h : ∀ c ∈ l, upperChar c = c) :
    l.map upperChar = l := by
  induction l with
  | nil => rfl
  | cons x xs ih =>
    rw [List.map_cons, h x (by simp), ih fun c hc => h c (by simp [hc])]

theorem filter_nonspace_fixed {l : List Char} (h : ∀ c ∈ l, isSpaceChar c = false) :
    l.filter (fun c => !isSpaceChar c) = l :=
  List.filter_eq_self.mpr fun c hc => by simp [h c hc]

theorem dropZeros_of_no_leading {c : Char} {t : List Char} (h : (c == '0') = false) :
    dropZeros (c :: t) = c :: t := by
  simp [dropZeros, List.dropWhile_cons, h]

theorem dropZeros_head : ∀ {l : List Char} {c : Char} {t : List Char},
    dropZeros l = c :: t → (c == '0') = false := by
  intro l
  induction l with
  | nil => intro c t h; cases h
  | cons x xs ih =>
    intro c t h
    by_cases hx : (x == '0') = true
    · rw [show dropZeros (x :: xs) = dropZeros xs from by
        simp [dropZeros, List.dropWhile_cons, hx]] at h
      exact ih h
    · have hx' : (x == '0') = false := by simpa using hx
      rw [dropZeros_of_no_leading hx'] at h
      cases h
      exact hx'

theorem mem_dropZeros {l : List Char} {c : Char} (h : c ∈ dropZeros l) : c ∈ l :=
  (List.dropWhile_sublist _).subset h

theorem mem_orZero {x : List Char} {c : Char} (h : c ∈ orZero x) : c = '0' ∨ c ∈ x := by
  cases x with
  | nil => simp [orZero] at h; exact Or.inl h
  | cons y ys => exact Or.inr (by simpa [orZero] using h)

theorem orZero_dropZeros_round (x : List Char) :
    orZero (dropZeros (orZero (dropZeros x))) = orZero (dropZeros x) := by
  cases hd : dropZeros x with
  | nil => rfl
  | cons c t =>
    have hc := dropZeros_head hd
    rw [show orZero (c :: t) = c :: t from by simp [orZero]]
    rw [dropZeros_of_no_leading hc]
    simp [orZero]

theorem take2_struct {l : List Char} (h : l.take 2 = ['R', 'F']) :
    l = 'R' :: 'F' :: l.drop 2 := by
  match l with
  | [] => cases h
  | [a] => cases h
  | a :: b :: rest =>
    simp only [List.take, List.cons.injEq] at h
    obtain ⟨h1, h2, -⟩ := h
    subst h1
    subst h2
    rfl

theorem orZero_ne_nil (x : List Char) : orZero x ≠ [] := by
  cases x <;> simp [orZero]

/-- The `normalized` local of `_normalize_reference` before zero stripping:
the uppercased, whitespace-free character list of the raw reference. -/
def refChars (r : String) : List Char :=
  (r.data.map upperChar).filter (fun c => !isSpaceChar c)

theorem normalize_reference_eq_of_not_space {r : String}
    (hws : ¬ r.data.all isSpaceChar = true) :
    _normalize_reference r =
      (if (refChars r).take 2 = ['R', 'F'] then
        String.mk ('R' :: 'F' :: orZero (dropZeros ((refChars r).drop 2)))
      else String.mk (orZero (dropZeros (refChars r)))) := by
  simp only [_normalize_reference, refChars]
  rw [if_neg hws]

theorem norm_RF_string {x : List Char}
    (hx : ∀ c ∈ x, upperChar c = c ∧ isSpaceChar c = false) :
    _normalize_reference (String.mk ('R' :: 'F' :: x)) =
      String.mk ('R' :: 'F' :: orZero (dropZeros x)) := by
  have hsws : ¬ (String.mk ('R' :: 'F' :: x)).data.all isSpaceChar = true := by
    have hr : isSpaceChar 'R' = false := by decide
    simp [List.all_cons, hr]
  have hrc : refChars (String.mk ('R' :: 'F' :: x)) = 'R' :: 'F' :: x := by
    show (('R' :: 'F' :: x).map upperChar).filter (fun c => !isSpaceChar c) = _
    rw [map_upperChar_fixed (by
      intro c hc
      rcases List.mem_cons.mp hc with rfl | hc
      · decide
      rcases List.mem_cons.mp hc with rfl | hc
      · decide
      exact (hx c hc).1)]
    rw [filter_nonspace_fixed (by
      intro c hc
      rcases List.mem_cons.mp hc with rfl | hc
      · decide
      rcases List.mem_cons.mp hc with rfl | hc
      · decide
      exact (hx c hc).2)]
  have h := normalize_reference_eq_of_not_space hsws
  rw [hrc] at h
  rw [if_pos (show ('R' :: 'F' :: x).take 2 = ['R', 'F'] from rfl)] at h
  simp only [List.drop_succ_cons, List.drop_zero] at h
  exact h

theorem norm_plain_string {x : List Char}
    (hx : ∀ c ∈ x, upperChar c = c ∧ isSpaceChar c = false)
    (hne : x ≠ []) (hnRF : ¬ x.take 2 = ['R', 'F']) :
    _normalize_reference (String.mk x) = String.mk (orZero (dropZeros x)) := by
  have hsws : ¬ (String.mk x).data.all isSpaceChar = true := by
    cases hx0 : x with
    | nil => exact absurd hx0 hne
    | cons c t =>
      have hcns := (hx c (by rw [hx0]; simp)).2
      simp [hx0, List.all_cons, hcns]
  have hrc : refChars (String.mk x) = x := by
    show (x.map upperChar).filter (fun c => !isSpaceChar c) = x
    rw [map_upperChar_fixed (fun c hc => (hx c hc).1),
      filter_nonspace_fixed (fun c hc => (hx c hc).2)]
  have h := normalize_reference_eq_of_not_space hsws
  rw [hrc, if_neg hnRF] at h
  exact h

/-- Every character of a normalized reference is a fixed point of the
uppercase map and is not whitespace. -/
theorem norm_chars (r : String) :
    ∀ c ∈ (_normalize_reference r).data, upperChar c = c ∧ isSpaceChar c = false := by
  intro c hc
  by_cases hws : r.data.all isSpaceChar = true
  · rw [show _normalize_reference r = "" from by
      simp only [_normalize_reference]; rw [if_pos hws]] at hc
    rw [show ("" : String).data = [] from rfl] at hc
    cases hc
  · have hfix := normChars_fixed r
    by_cases hRF : (refChars r).take 2 = ['R', 'F']
    · have hnorm := normalize_reference_eq_of_not_space hws
      rw [if_pos hRF] at hnorm
      rw [hnorm] at hc
      rw [show (String.mk ('R' :: 'F' ::
        orZero (dropZeros ((refChars r).drop 2)))).data = 'R' :: 'F' ::
        orZero (dropZeros ((refChars r).drop 2)) from rfl] at hc
      rcases List.mem_cons.mp hc with rfl | hc
      · exact ⟨by decide, by decide⟩
      rcases List.mem_cons.mp hc with rfl | hc
      · exact ⟨by decide, by decide⟩
      rcases mem_orZero hc with rfl | hc
      · exact ⟨by decide, by decide⟩
      exact hfix c (List.drop_subset 2 (refChars r) (mem_dropZeros hc))
    · have hnorm := normalize_reference_eq_of_not_space hws
      rw [if_neg hRF] at hnorm
      rw [hnorm] at hc
      rw [show (String.mk (orZero (dropZeros (refChars r)))).data =
        orZero (dropZeros (refChars r)) from rfl] at hc
      rcases mem_orZero hc with rfl | hc
      · exact ⟨by decide, by decide⟩
      exact hfix c (mem_dropZeros hc)

/-- Renormalizing a normalized reference: the identity, except that an
output of the form `RF ++ tail` gets its tail stripped of leading zeros
once more (with the `or '0'` default). -/
theorem norm_norm_eq (r : String) :
    _normalize_reference (_normalize_reference r) =
      if (_normalize_reference r).data.take 2 = ['R', 'F'] then
        String.mk ('R' :: 'F' :: orZero (dropZeros ((_normalize_reference r).data.drop 2)))
      else _normalize_reference r := by
  by_cases hws : r.data.all isSpaceChar = true
  · rw [show _normalize_reference r = "" from by
      simp only [_normalize_reference]; rw [if_pos hws]]
    rw [if_neg (show ¬ ("" : String).data.take 2 = ['R', 'F'] from by decide)]
    decide
  · have hfix := normChars_fixed r
    by_cases hRF : (refChars r).take 2 = ['R', 'F']
    · -- the `RF` branch already produced the output; its tail is stable
      have hnorm := normalize_reference_eq_of_not_space hws
      rw [if_pos hRF] at hnorm
      have hpc : ∀ c ∈ orZero (dropZeros ((refChars r).drop 2)),
          upperChar c = c ∧ isSpaceChar c = false := by
        intro c hc
        rcases mem_orZero hc with rfl | hc
        · exact ⟨by decide, by decide⟩
        · exact hfix c (List.drop_subset 2 (refChars r) (mem_dropZeros hc))
      rw [hnorm]
      rw [if_pos (show (String.mk ('R' :: 'F' ::
        orZero (dropZeros ((refChars r).drop 2)))).data.take 2 = ['R', 'F'] from rfl)]
      rw [norm_RF_string hpc]
      rfl
    · have hnorm := normalize_reference_eq_of_not_space hws
      rw [if_neg hRF] at hnorm
      have hqc : ∀ c ∈ orZero (dropZeros (refChars r)),
          upperChar c = c ∧ isSpaceChar c = false := by
        intro c hc
        rcases mem_orZero hc with rfl | hc
        · exact ⟨by decide, by decide⟩
        · exact hfix c (mem_dropZeros hc)
      rw [hnorm]
      by_cases hq2 : (orZero (dropZeros (refChars r))).take 2 = ['R', 'F']
      · rw [if_pos (show (String.mk (orZero (dropZeros (refChars r)))).data.take 2 =
          ['R', 'F'] from hq2)]
        have hstruct := take2_struct hq2
        rw [show String.mk (orZero (dropZeros (refChars r))) =
          String.mk ('R' :: 'F' :: (orZero (dropZeros (refChars r))).drop 2) from
            congrArg String.mk hstruct]
        rw [norm_RF_string (by
          intro c hc
          exact hqc c (List.drop_subset 2 _ hc))]
        rfl
      · rw [if_neg (show ¬ (String.mk (orZero (dropZeros (refChars r)))).data.take 2 =
          ['R', 'F'] from hq2)]
        rw [norm_plain_string hqc (orZero_ne_nil _) hq2]
        rw [orZero_dropZeros_round]

/-- C8 (corrected): reference normalization is idempotent at `r` exactly
when its output, in case it starts with the `RF` marker, carries a tail
that stripping leading zeros (with the `"0"` default) leaves unchanged.
The only non-fixpoints are inputs normalizing to `RF` followed by nothing
or by a tail that still loses leading zeros (`"0RF" → "RF" → "RF0"`,
`"0RF00" → "RF00" → "RF0"`); inputs such as `"0RF5"` or `"0RF0"` are
idempotent. -/
theorem claim_C8_normalize_idempotent_amended :
    ∀ r : String,
      _normalize_reference (_normalize_reference r) = _normalize_reference r ↔
        ((_normalize_reference r).data.take 2 = ['R', 'F'] →
          orZero (dropZeros ((_normalize_reference r).data.drop 2)) =
            (_normalize_reference r).data.drop 2) := by
  intro r
  rw [norm_norm_eq r]
  by_cases h2 : (_normalize_reference r).data.take 2 = ['R', 'F']
  · rw [if_pos h2]
    constructor
    · intro he hRF2
      exact congrArg (fun s => List.drop 2 s.data) he
    · intro himp
      rw [himp h2]
      exact congrArg String.mk (take2_struct h2).symm
  · rw [if_neg h2]
    constructor
    · intro h hh
      exact absurd hh h2
    · intro h
      rfl

/-- Counterexample to C8 as stated: `"0RF"` normalizes to `"RF"`, which
normalizes again to `"RF0"`, so normalization is not idempotent on all
inputs. -/
theorem claim_C8_counterexample :
    _normalize_reference "0RF" = "RF" ∧
    _normalize_reference (_normalize_reference "0RF") = "RF0" ∧
    _normalize_reference (_normalize_reference "0RF") ≠ _normalize_reference "0RF" := by
  refine ⟨by decide, by decide, by decide⟩

/-- Witness for the amended C8: idempotence through the `RF` branch, on a
leading-zeros-then-`RF` input with a stable tail, and through the plain
branch. -/
theorem claim_C8_witness :
    _normalize_reference (_normalize_reference "RF00 1234") = _normalize_reference "RF00 1234" ∧
    _normalize_reference (_normalize_reference "0RF5") = _normalize_reference "0RF5" ∧
    _normalize_reference (_normalize_reference "000123") = _normalize_reference "000123" :=
  ⟨(claim_C8_normalize_idempotent_amended "RF00 1234").mpr (by decide),
    (claim_C8_normalize_idempotent_amended "0RF5").mpr (by decide),
    (claim_C8_normalize_idempotent_amended "000123").mpr (by decide)⟩

/-! ## C6: empty names -/

/-- C6 (corrected): `names_match` is false whenever either side is the
empty string before normalization.  (A whitespace-only name is truthy in
the source and is *not* rejected — see the counterexample.) -/
theorem claim_C6_empty_names_amended :
    ∀ (a b : String), (a = "" ∨ b = "") → _names_match a b = false := by
  intro a b h
  simp only [_names_match]
  rw [if_pos h]

/-- Counterexample to C6 as stated: a whitespace-only name is non-empty
before normalization, normalizes to the empty string, and then matches any
non-empty name through the empty-substring containment rule. -/
theorem claim_C6_counterexample :
    _names_match "   " "abc" = true ∧ _normalize_name "   " = "" :=
  ⟨by with_unfolding_all decide, by with_unfolding_all decide⟩

/-- Witness for the amended C6. -/
theorem claim_C6_witness : _names_match "" "Jane Smith" = false :=
  claim_C6_empty_names_amended "" "Jane Smith" (Or.inl rfl)

/-! ## C5: empty normalized references -/

theorem candsA_score {tx : Transaction} {atts : List Attachment} {p : Attachment × ℕ}
    (h : p ∈ candsA tx atts) :
    5 ≤ (_calculate_match_score tx p.1).1 ∧ (_calculate_match_score tx p.1).2 = true := by
  rcases List.mem_filterMap.mp h with ⟨a, ha, hfa⟩
  by_cases hc : 5 ≤ (_calculate_match_score tx a).1 ∧ (_calculate_match_score tx a).2 = true
  · simp only [candsA, if_pos hc] at hfa
    cases hfa
    exact hc
  · simp [candsA, if_neg hc] at hfa

theorem candsT_score {att : Attachment} {ts : List Transaction} {p : Transaction × ℕ}
    (h : p ∈ candsT att ts) :
    5 ≤ (_calculate_match_score p.1 att).1 ∧ (_calculate_match_score p.1 att).2 = true := by
  rcases List.mem_filterMap.mp h with ⟨t, ht, hft⟩
  by_cases hc : 5 ≤ (_calculate_match_score t att).1 ∧ (_calculate_match_score t att).2 = true
  · simp only [candsT, if_pos hc] at hft
    cases hft
    exact hc
  · simp [candsT, if_neg hc] at hft

/-- C5 (corrected): the reference short-circuit is skipped exactly when the
*raw* reference is falsy (absent or the empty string); in that case any
returned candidate passed the scoring gate.  A whitespace-only raw
reference is truthy, normalizes to the empty string and can still
exact-match a candidate whose reference also normalizes to empty — see the
counterexample. -/
theorem claim_C5_empty_reference_amended :
    (∀ (tx : Transaction) (atts : List Attachment) (a : Attachment),
      truthy tx.reference = false →
      find_attachment tx atts = some a →
      5 ≤ (_calculate_match_score tx a).1 ∧ (_calculate_match_score tx a).2 = true) ∧
    (∀ (att : Attachment) (ts : List Transaction) (t : Transaction),
      truthy att.data.reference = false →
      find_transaction att ts = some t →
      5 ≤ (_calculate_match_score t att).1 ∧ (_calculate_match_score t att).2 = true) := by
  constructor
  · intro tx atts a htr h
    rw [show find_attachment tx atts = (match (if truthy tx.reference then
        atts.find? (refMatchA (_normalize_reference (optVal tx.reference))) else none) with
      | some x => some x
      | none =>
        match pySortDesc (candsA tx atts) with
        | [] => none
        | c :: _ => some c.1) from rfl] at h
    rw [if_neg (by simp [htr])] at h
    cases hps : pySortDesc (candsA tx atts) with
    | nil => rw [hps] at h; cases h
    | cons c rest =>
      rw [hps] at h
      cases h
      have hm : c ∈ pySortDesc (candsA tx atts) := by rw [hps]; simp
      exact candsA_score (mem_pySortDesc hm)
  · intro att ts t htr h
    rw [show find_transaction att ts = (match (if truthy att.data.reference then
        ts.find? (refMatchT (_normalize_reference (optVal att.data.reference))) else none) with
      | some x => some x
      | none =>
        match pySortDesc (candsT att ts) with
        | [] => none
        | c :: _ => some c.1) from rfl] at h
    rw [if_neg (by simp [htr])] at h
    cases hps : pySortDesc (candsT att ts) with
    | nil => rw [hps] at h; cases h
    | cons c rest =>
      rw [hps] at h
      cases h
      have hm : c ∈ pySortDesc (candsT att ts) := by rw [hps]; simp
      exact candsT_score (mem_pySortDesc hm)

/-- Counterexample to C5 as stated: a whitespace-only reference on both
sides normalizes to the empty string on both sides, yet the candidate is
returned by the short-circuit (its match score is `(0, false)`, so it was
not returned by scoring). -/
theorem claim_C5_counterexample :
    find_attachment { id := 1, reference := some " " }
        [{ id := 7, data := { reference := some " " } }] =
      some { id := 7, data := { reference := some " " } } ∧
    _normalize_reference " " = "" ∧
    _calculate_match_score { id := 1, reference := some " " }
        { id := 7, data := { reference := some " " } } = (0, false) :=
  ⟨by with_unfolding_all decide, by decide, by with_unfolding_all decide⟩

/-- Witness for the amended C5: with an absent reference the only way to be
returned is the scoring gate. -/
theorem claim_C5_witness :
    5 ≤ (_calculate_match_score { id := 2, amount := some 42, date := some "2024-03-01" }
        { id := 8, data := { total_amount := some 42, invoicing_date := some "2024-03-05" } }).1 ∧
    (_calculate_match_score { id := 2, amount := some 42, date := some "2024-03-01" }
        { id := 8, data := { total_amount := some 42, invoicing_date := some "2024-03-05" } }).2 = true :=
  claim_C5_empty_reference_amended.1
    { id := 2, amount := some 42, date := some "2024-03-01" }
    [{ id := 8, data := { total_amount := some 42, invoicing_date := some "2024-03-05" } }]
    { id := 8, data := { total_amount := some 42, invoicing_date := some "2024-03-05" } }
    (by decide) (by with_unfolding_all decide)

/-! ## C1: counterparty scoring -/

/-- Claim-side quantity: the maximum specificity over the attachment names
that fuzzily match the contact (`0` when none matches). -/
def maxMatchSpecificity (contact : String) (names : List String) : ℕ :=
  ((names.filter fun n => _names_match contact n).map
    fun n => _calculate_name_specificity contact n).foldr max 0

/-- The point table of the claim: `5→+5, 4→+4, 3→+3, 2→+2`, any lower
positive match `→+1`, nothing for `0`. -/
def claimPoints (n : ℕ) : ℕ :=
  if 5 ≤ n then 5
  else if n = 4 then 4
  else if n = 3 then 3
  else if n = 2 then 2
  else if 0 < n then 1
  else 0

theorem maxMatchSpecificity_cons (contact n : String) (ns : List String) :
    maxMatchSpecificity contact (n :: ns) =
      if _names_match contact n then
        max (_calculate_name_specificity contact n) (maxMatchSpecificity contact ns)
      else maxMatchSpecificity contact ns := by
  by_cases hm : _names_match contact n
  · simp [maxMatchSpecificity, List.filter_cons, hm]
  · simp [maxMatchSpecificity, List.filter_cons, hm]

theorem cpFold_eq (contact : String) :
    ∀ (names : List String) (b : ℕ) (flag : Bool),
      names.foldl (cpStep contact) (b, flag) =
        (max b (maxMatchSpecificity contact names),
          flag || decide (b < maxMatchSpecificity contact names)) := by
  intro names
  induction names with
  | nil =>
    intro b flag
    simp [maxMatchSpecificity]
  | cons n ns ih =>
    intro b flag
    rw [List.foldl_cons, maxMatchSpecificity_cons]
    by_cases hm : _names_match contact n
    · rw [if_pos hm]
      by_cases hs : _calculate_name_specificity contact n > b
      · rw [show cpStep contact (b, flag) n = (_calculate_name_specificity contact n, true) from by
          simp [cpStep, hm, hs]]
        rw [ih]
        have h1 : max b (max (_calculate_name_specificity contact n)
            (maxMatchSpecificity contact ns)) =
            max (_calculate_name_specificity contact n) (maxMatchSpecificity contact ns) :=
          Nat.max_eq_right (le_trans (le_of_lt hs) (Nat.le_max_left _ _))
        have h2 : decide (b < max (_calculate_name_specificity contact n)
            (maxMatchSpecificity contact ns)) = true := by
          simp only [decide_eq_true_eq]
          exact lt_of_lt_of_le hs (Nat.le_max_left _ _)
        rw [h1, h2, Bool.or_true, Bool.true_or]
      · rw [show cpStep contact (b, flag) n = (b, flag) from by simp [cpStep, hm, hs]]
        rw [ih]
        have hsle : _calculate_name_specificity contact n ≤ b := by omega
        have h1 : max b (max (_calculate_name_specificity contact n)
            (maxMatchSpecificity contact ns)) = max b (maxMatchSpecificity contact ns) := by
          rw [← Nat.max_assoc, Nat.max_eq_left hsle]
        have h2 : decide (b < max (_calculate_name_specificity contact n)
            (maxMatchSpecificity contact ns)) =
            decide (b < maxMatchSpecificity contact ns) := by
          rw [decide_eq_decide, lt_max_iff]
          constructor
          · rintro (h | h)
            · omega
            · exact h
          · exact Or.inr
        rw [h1, h2]
    · rw [if_neg hm]
      rw [show cpStep contact (b, flag) n = (b, flag) from by simp [cpStep, hm]]
      exact ih b flag

theorem counterpartyBest_eq (contact : String) (names : List String) :
    counterpartyBest contact names =
      (maxMatchSpecificity contact names,
        decide (0 < maxMatchSpecificity contact names)) := by
  unfold counterpartyBest
  rw [cpFold_eq]
  simp

theorem pointsForBest_eq_claimPoints {n : ℕ} (h : 0 < n) :
    pointsForBest n = claimPoints n := by
  unfold pointsForBest claimPoints
  split_ifs <;> omega

/-- Claim-side helper: the hard amount gate of `_calculate_match_score` in
isolation (both amounts present and the magnitude difference within the
context-dependent tolerance). -/
def amountGate (transaction : Transaction) (attachment : Attachment) : Bool :=
  match attachment.data.total_amount, transaction.amount with
  | none, _ => false
  | _, none => false
  | some att_amount, some tx_amount =>
    let att_abs := |att_amount|
    let tx_abs := |tx_amount|
    let amount_diff := |att_abs - tx_abs|
    let tolerance : ℚ := if is_precision_mismatch tx_abs att_abs then 2 / 1000 else 11 / 1000
    if amount_diff > tolerance then false else true

theorem amountGate_none_total {tx : Transaction} {att : Attachment}
    (ha : att.data.total_amount = none) : amountGate tx att = false := by
  unfold amountGate
  rw [ha]
  cases tx.amount <;> rfl

theorem amountGate_none_amount {tx : Transaction} {att : Attachment}
    (htx : tx.amount = none) : amountGate tx att = false := by
  unfold amountGate
  rw [htx]
  cases att.data.total_amount <;> rfl

theorem amountGate_some {tx : Transaction} {att : Attachment} {ta aa : ℚ}
    (htx : tx.amount = some ta) (ha : att.data.total_amount = some aa) :
    amountGate tx att =
      if abs (abs aa - abs ta) >
          (if is_precision_mismatch (abs ta) (abs aa) then (2 : ℚ) / 1000 else 11 / 1000) then
        false
      else true := by
  unfold amountGate
  rw [ha, htx]

theorem calculate_match_score_some {tx : Transaction} {att : Attachment} {ta aa : ℚ}
    (htx : tx.amount = some ta) (ha : att.data.total_amount = some aa) :
    _calculate_match_score tx att =
      if abs (abs aa - abs ta) >
          (if is_precision_mismatch (abs ta) (abs aa) then (2 : ℚ) / 1000 else 11 / 1000) then
        ((0 : ℕ), false)
      else
        let score := if truthy tx.date ∧ _are_dates_compatible (optVal tx.date) att.data then
          3 + 2 else 3
        if truthy tx.contact then
          let r := counterpartyBest (optVal tx.contact) (_get_attachment_counterparty_names att)
          if r.2 then (score + pointsForBest r.1, true) else (score, false)
        else if _get_attachment_counterparty_names att ≠ [] then (score + 1, true)
        else (score + 1, true) := by
  unfold _calculate_match_score
  dsimp only
  rw [ha, htx]

/-- C1 (corrected): for a transaction with a truthy contact whose amount
passes the gate, `counterparty_compatible` is set exactly when some
extracted name matches the contact *with positive specificity*, and the
points added are given by the claim's table at the maximum specificity over
matching names.  (A name can fuzzily match with specificity 0 — then no
points are added and the flag stays false, see the counterexample.) -/
theorem claim_C1_counterparty_scoring_amended :
    ∀ (tx : Transaction) (att : Attachment),
      truthy tx.contact = true →
      amountGate tx att = true →
      (_calculate_match_score tx att).2 =
        decide (0 < maxMatchSpecificity (optVal tx.contact)
          (_get_attachment_counterparty_names att)) ∧
      (_calculate_match_score tx att).1 =
        3 + (if truthy tx.date ∧ _are_dates_compatible (optVal tx.date) att.data then 2 else 0) +
          claimPoints (maxMatchSpecificity (optVal tx.contact)
            (_get_attachment_counterparty_names att)) := by
  intro tx att hc hg
  cases ha : att.data.total_amount with
  | none => rw [amountGate_none_total ha] at hg; cases hg
  | some aa =>
    cases htx : tx.amount with
    | none => rw [amountGate_none_amount htx] at hg; cases hg
    | some ta =>
      rw [amountGate_some htx ha] at hg
      by_cases hgt : abs (abs aa - abs ta) >
          (if is_precision_mismatch (abs ta) (abs aa) then (2 : ℚ) / 1000 else 11 / 1000)
      · rw [if_pos hgt] at hg; cases hg
      · rw [calculate_match_score_some htx ha, if_neg hgt]
        simp only [hc, if_true]
        rw [counterpartyBest_eq]
        by_cases hpos : 0 < maxMatchSpecificity (optVal tx.contact)
            (_get_attachment_counterparty_names att)
        · rw [show decide (0 < maxMatchSpecificity (optVal tx.contact)
            (_get_attachment_counterparty_names att)) = true from by simp [hpos]]
          simp only [if_true]
          refine ⟨by trivial, ?_⟩
          rw [pointsForBest_eq_claimPoints hpos]
          by_cases hd : truthy tx.date ∧ _are_dates_compatible (optVal tx.date) att.data
          · rw [if_pos hd, if_pos hd]
          · rw [if_neg hd, if_neg hd]
        · have h0 : maxMatchSpecificity (optVal tx.contact)
              (_get_attachment_counterparty_names att) = 0 := by omega
          rw [show decide (0 < maxMatchSpecificity (optVal tx.contact)
            (_get_attachment_counterparty_names att)) = false from by simp [hpos]]
          simp only [Bool.false_eq_true, if_false]
          refine ⟨by trivial, ?_⟩
          rw [h0]
          by_cases hd : truthy tx.date ∧ _are_dates_compatible (optVal tx.date) att.data
          · rw [if_pos hd, if_pos hd]
            rfl
          · rw [if_neg hd, if_neg hd]
            rfl

/-- Counterexample to C1 as stated: the contact fuzzily matches the
attachment issuer (two common words out of three), but the specificity of
that match is 0, so the source adds no points and leaves
`counterparty_compatible == false`, where the claim demands `true`. -/
theorem claim_C1_counterexample :
    _names_match "alpha beta gamma" "alpha beta delta" = true ∧
    _calculate_name_specificity "alpha beta gamma" "alpha beta delta" = 0 ∧
    _calculate_match_score { id := 1, amount := some 10, contact := some "alpha beta gamma" }
        { id := 2, data := { total_amount := some 10, issuer := some "alpha beta delta" } } =
      (3, false) :=
  ⟨by with_unfolding_all decide, by with_unfolding_all decide, by with_unfolding_all decide⟩

/-- Witness for the amended C1: an exact contact/recipient match has
specificity 4 and contributes +4 on top of amount (+3). -/
theorem claim_C1_witness :
    _calculate_match_score { id := 1, amount := some 100, contact := some "Jane Smith" }
        { id := 2, data := { total_amount := some 100, recipient := some "Jane Smith" } } =
      (7, true) := by
  have h := claim_C1_counterparty_scoring_amended
    { id := 1, amount := some 100, contact := some "Jane Smith" }
    { id := 2, data := { total_amount := some 100, recipient := some "Jane Smith" } }
    (by decide) (by with_unfolding_all decide)
  refine Prod.ext ?_ ?_
  · rw [h.2]
    with_unfolding_all decide
  · rw [h.1]
    with_unfolding_all decide

/-! ## C4: the amount gate on round-cent values -/

theorem isIntegralQ_iff {q : ℚ} : isIntegralQ q = true ↔ ((q.num : ℚ) = q) := by
  rw [show isIntegralQ q = decide (q.den = 1) from rfl, decide_eq_true_eq]
  exact Rat.den_eq_one_iff q

theorem intCast_integral (n : ℤ) : isIntegralQ ((n : ℚ)) = true := by
  rw [show isIntegralQ (n : ℚ) = decide ((n : ℚ).den = 1) from rfl, decide_eq_true_eq]
  exact Rat.den_intCast n

theorem sub_integral {a b : ℚ} (ha : isIntegralQ a = true) (hb : isIntegralQ b = true) :
    isIntegralQ (a - b) = true := by
  have h1 := isIntegralQ_iff.mp ha
  have h2 := isIntegralQ_iff.mp hb
  have : a - b = ((a.num - b.num : ℤ) : ℚ) := by push_cast; rw [h1, h2]
  rw [this]
  exact intCast_integral _

theorem ratFloor_eq_of_integral {q : ℚ} (h : isIntegralQ q = true) : (ratFloor q : ℚ) = q := by
  have hd : q.den = 1 := by
    have := h
    rw [show isIntegralQ q = decide (q.den = 1) from rfl, decide_eq_true_eq] at this
    exact this
  unfold ratFloor
  rw [hd]
  simp only [Nat.cast_one, Int.fdiv_one]
  exact isIntegralQ_iff.mp h

theorem pyMod1_integral {q : ℚ} (h : isIntegralQ q = true) : pyMod1 q = 0 := by
  unfold pyMod1
  rw [ratFloor_eq_of_integral h]
  ring

theorem pyMod1_cent {q : ℚ} (h : isIntegralQ (q * 100) = true) :
    isIntegralQ (pyMod1 q * 100) = true := by
  have h2 : isIntegralQ ((ratFloor q : ℚ) * 100) = true := by
    have : ((ratFloor q : ℚ)) * 100 = ((ratFloor q * 100 : ℤ) : ℚ) := by push_cast; ring
    rw [this]
    exact intCast_integral _
  have h3 : pyMod1 q * 100 = q * 100 - (ratFloor q : ℚ) * 100 := by unfold pyMod1; ring
  rw [h3]
  exact sub_integral h h2

/-- Two exact multiples of a cent within `0.001` of each other are equal. -/
theorem cent_multiple_near {q c : ℚ} (hq : isIntegralQ (q * 100) = true)
    (hc : isIntegralQ (c * 100) = true) (h : |q - c| < 1 / 1000) : q = c := by
  have hqn : (((q * 100).num : ℚ)) = q * 100 := isIntegralQ_iff.mp hq
  have hcn : (((c * 100).num : ℚ)) = c * 100 := isIntegralQ_iff.mp hc
  by_contra hne
  have hne2 : (q * 100).num ≠ (c * 100).num := by
    intro e
    apply hne
    have h100 : q * 100 = c * 100 := by rw [← hqn, ← hcn, e]
    linarith
  have h1 : (1 : ℚ) ≤ |(((q * 100).num : ℚ)) - (((c * 100).num : ℚ))| := by
    have hge : (1 : ℤ) ≤ |(q * 100).num - (c * 100).num| :=
      Int.one_le_abs (sub_ne_zero.mpr hne2)
    calc (1 : ℚ) = ((1 : ℤ) : ℚ) := by norm_num
    _ ≤ ((|(q * 100).num - (c * 100).num| : ℤ) : ℚ) := by exact_mod_cast hge
    _ = |(((q * 100).num : ℚ)) - (((c * 100).num : ℚ))| := by push_cast; ring_nf
  rw [hqn, hcn] at h1
  have h2 : |q * 100 - c * 100| < 1 / 10 := by
    have hm : |q - c| * 100 < (1 / 1000 : ℚ) * 100 := by
      apply mul_lt_mul_of_pos_right h
      norm_num
    have he : |q * 100 - c * 100| = |q - c| * 100 := by
      rw [show q * 100 - c * 100 = (q - c) * 100 from by ring, abs_mul]
      norm_num
    rw [he]
    linarith
  linarith

/-- The claim-side banking-rounding pattern: one magnitude sits at `X.99`,
the other at a whole number of euros. -/
def bankingPatternExact (tx_abs att_abs : ℚ) : Prop :=
  (pyMod1 tx_abs = 99 / 100 ∧ pyMod1 att_abs = 0) ∨
    (pyMod1 att_abs = 99 / 100 ∧ pyMod1 tx_abs = 0)

instance (a b : ℚ) : Decidable (bankingPatternExact a b) :=
  inferInstanceAs (Decidable ((pyMod1 a = 99 / 100 ∧ pyMod1 b = 0) ∨
    (pyMod1 b = 99 / 100 ∧ pyMod1 a = 0)))

theorem banking_toleranced_iff {ta aa : ℚ} (hta : isIntegralQ (ta * 100) = true)
    (haa : isIntegralQ (aa * 100) = true) :
    ((|pyMod1 ta - 99 / 100| < (1 : ℚ) / 1000 ∧ |pyMod1 aa| < (1 : ℚ) / 1000) ∨
      (|pyMod1 aa - 99 / 100| < (1 : ℚ) / 1000 ∧ |pyMod1 ta| < (1 : ℚ) / 1000)) ↔
      bankingPatternExact ta aa := by
  have h99 : isIntegralQ ((99 / 100 : ℚ) * 100) = true := by
    rw [show ((99 / 100 : ℚ)) * 100 = ((99 : ℤ) : ℚ) from by norm_num]
    exact intCast_integral 99
  have h0 : isIntegralQ ((0 : ℚ) * 100) = true := by
    rw [show ((0 : ℚ)) * 100 = ((0 : ℤ) : ℚ) from by norm_num]
    exact intCast_integral 0
  constructor
  · rintro (⟨h1, h2⟩ | ⟨h1, h2⟩)
    · exact Or.inl ⟨cent_multiple_near (pyMod1_cent hta) h99 h1,
        cent_multiple_near (pyMod1_cent haa) h0 (by simpa using h2)⟩
    · exact Or.inr ⟨cent_multiple_near (pyMod1_cent haa) h99 h1,
        cent_multiple_near (pyMod1_cent hta) h0 (by simpa using h2)⟩
  · rintro (⟨h1, h2⟩ | ⟨h1, h2⟩)
    · refine Or.inl ⟨?_, ?_⟩
      · rw [h1]; norm_num
      · rw [h2]; norm_num
    · refine Or.inr ⟨?_, ?_⟩
      · rw [h1]; norm_num
      · rw [h2]; norm_num

/-- C4 (corrected): on round-cent magnitudes, an exact difference of `0.01`
that is not the `X.99`/`(X+1).00` banking pattern is rejected with score 0
*when at least one of the two magnitudes is a whole number of euros* (the
code's additional `% 1` test, which the claim omits); a difference of
`0.005` passes the gate with score at least 3 (vacuously here: round-cent
magnitudes cannot differ by half a cent). -/
theorem claim_C4_amount_gate_amended :
    ∀ (tx : Transaction) (att : Attachment) (ta aa : ℚ),
      tx.amount = some ta →
      att.data.total_amount = some aa →
      isIntegralQ (|ta| * 100) = true →
      isIntegralQ (|aa| * 100) = true →
      (abs (abs aa - abs ta) = 1 / 100 →
        ¬ bankingPatternExact |ta| |aa| →
        (isIntegralQ |ta| = true ∨ isIntegralQ |aa| = true) →
        _calculate_match_score tx att = (0, false)) ∧
      (abs (abs aa - abs ta) = 1 / 200 →
        amountGate tx att = true ∧ 3 ≤ (_calculate_match_score tx att).1) := by
  intro tx att ta aa htx ha hta haa
  constructor
  · intro hdiff hnb hint
    have hmis : is_precision_mismatch |ta| |aa| = true := by
      unfold is_precision_mismatch
      dsimp only
      by_cases hcase1 : 3 < ((decimalPlaces |ta| : ℤ) - (decimalPlaces |aa| : ℤ)).natAbs ∧
          4 < max (decimalPlaces |ta|) (decimalPlaces |aa|)
      · rw [if_pos hcase1]
      · rw [if_neg hcase1]
        rw [hdiff]
        rw [if_pos (show |(1 : ℚ) / 100 - 1 / 100| < 1 / 1000 from by norm_num)]
        rw [if_pos (show |pyMod1 (|ta| * 100)| < (1 : ℚ) / 1000 ∧
            |pyMod1 (|aa| * 100)| < (1 : ℚ) / 1000 from by
          rw [pyMod1_integral hta, pyMod1_integral haa]
          norm_num)]
        have hbank : ¬((abs (pyMod1 (abs ta) - 99 / 100) < (1 : ℚ) / 1000 ∧
            abs (pyMod1 (abs aa)) < (1 : ℚ) / 1000) ∨
          (abs (pyMod1 (abs aa) - 99 / 100) < (1 : ℚ) / 1000 ∧
            abs (pyMod1 (abs ta)) < (1 : ℚ) / 1000)) := by
          intro hb
          exact hnb ((banking_toleranced_iff hta haa).mp hb)
        have hzero : abs (pyMod1 (abs ta)) < (1 : ℚ) / 1000 ∨
            abs (pyMod1 (abs aa)) < (1 : ℚ) / 1000 := by
          rcases hint with h | h
          · exact Or.inl (by rw [pyMod1_integral h]; norm_num)
          · exact Or.inr (by rw [pyMod1_integral h]; norm_num)
        rw [if_pos (And.intro hbank hzero)]
    rw [calculate_match_score_some htx ha]
    rw [if_pos (show abs (abs aa - abs ta) >
        (if is_precision_mismatch |ta| |aa| then (2 : ℚ) / 1000 else 11 / 1000) from by
      rw [hmis, if_pos rfl, hdiff]
      norm_num)]
  · intro hdiff2
    exfalso
    have hsub : isIntegralQ ((|aa| - |ta|) * 100) = true := by
      have he : (|aa| - |ta|) * 100 = |aa| * 100 - |ta| * 100 := by ring
      rw [he]
      exact sub_integral haa hta
    rcases (abs_eq (show (0 : ℚ) ≤ 1 / 200 from by norm_num)).mp hdiff2 with h | h
    · rw [show |aa| - |ta| = abs aa - abs ta from rfl, h] at hsub
      rw [show ((1 : ℚ) / 200) * 100 = 1 / 2 from by norm_num] at hsub
      rw [show isIntegralQ ((1 : ℚ) / 2) = false from by with_unfolding_all decide] at hsub
      cases hsub
    · rw [show |aa| - |ta| = abs aa - abs ta from rfl, h] at hsub
      rw [show (-((1 : ℚ) / 200)) * 100 = -(1 / 2) from by norm_num] at hsub
      rw [show isIntegralQ (-((1 : ℚ) / 2)) = false from by with_unfolding_all decide] at hsub
      cases hsub

/-- Counterexample to C4 as stated: `5.51` versus `5.50` are round-cent
amounts exactly `0.01` apart and not the banking pattern, yet neither is a
whole number of euros, so the lenient `0.011` tolerance applies and the
pair scores `(4, true)` instead of being rejected. -/
theorem claim_C4_counterexample :
    isIntegralQ ((551 / 100 : ℚ) * 100) = true ∧
    isIntegralQ ((11 / 2 : ℚ) * 100) = true ∧
    abs (abs (11 / 2 : ℚ) - abs (551 / 100 : ℚ)) = 1 / 100 ∧
    ¬ bankingPatternExact (551 / 100 : ℚ) (11 / 2 : ℚ) ∧
    _calculate_match_score { id := 1, amount := some (551 / 100) }
        { id := 2, data := { total_amount := some (11 / 2) } } = (4, true) :=
  ⟨by with_unfolding_all decide, by with_unfolding_all decide, by with_unfolding_all decide,
    by with_unfolding_all decide, by with_unfolding_all decide⟩

/-- Witness for the amended C4: `7.00` versus `7.01` is rejected outright. -/
theorem claim_C4_witness :
    _calculate_match_score { id := 1, amount := some (-7) }
        { id := 2, data := { total_amount := some (701 / 100) } } = (0, false) :=
  (claim_C4_amount_gate_amended { id := 1, amount := some (-7) }
      { id := 2, data := { total_amount := some (701 / 100) } } (-7) (701 / 100)
      rfl rfl (by with_unfolding_all decide) (by with_unfolding_all decide)).1
    (by with_unfolding_all decide) (by with_unfolding_all decide)
    (Or.inl (by with_unfolding_all decide))

end NocfoMatch
